import Mathlib

/-!
Verification development for the PTI GPU tracing core
(`tools/ze_tracer/ze_kernel_collector.h` and `tools/oneprof/profiler.h`).

The C++ sources are shallowly embedded: unsigned 64-bit arithmetic is
modelled on `Nat` with explicit reduction modulo `2 ^ 64`, driver queries
(`zeEventQueryStatus`, `zeEventQueryKernelTimestamp`) are an explicit
environment, `PTI_ASSERT` failures are `Option.none`, and opaque driver
handles are natural numbers.
-/

/-- `NSEC_IN_SEC` from `utils.h`: nanoseconds per second. -/
def NSEC_IN_SEC : Nat := 1000000000

/-- Modulus of unsigned 64-bit arithmetic. -/
def U64 : Nat := 2 ^ 64

/-- `2 ^ 32`, the assumed wrap period of the device timer (`1ull << 32`). -/
def U32 : Nat := 2 ^ 32

/-- Unsigned 64-bit addition. -/
def u64add (a b : Nat) : Nat := (a + b) % U64

/-- Unsigned 64-bit subtraction (two's complement wraparound). -/
def u64sub (a b : Nat) : Nat := (a + U64 - b % U64) % U64

/-- Unsigned 64-bit multiplication. -/
def u64mul (a b : Nat) : Nat := (a * b) % U64

/-- Result statuses of driver calls that the collector distinguishes:
`ZE_RESULT_SUCCESS`, `ZE_RESULT_NOT_READY`, and everything else. -/
inductive ZeResult where
  | success
  | notReady
  | errorUnknown
  deriving DecidableEq, Repr

/-- Tick-delta-to-nanoseconds conversion of `ZeKernelCollector::ProcessCall`
(ze_kernel_collector.h, lines 467-474): `duration = (end - start) * NSEC_IN_SEC / freq`
when `start < end`, and `duration = ((1ull << 32) + end - start) * NSEC_IN_SEC / freq`
otherwise (the branch the source comments as 32-bit timer overflow). -/
def ComputeDuration (kstart kend freq : Nat) : Nat :=
  if kstart < kend then
    u64mul (u64sub kend kstart) NSEC_IN_SEC / freq
  else
    u64mul (u64sub (u64add U32 kend) kstart) NSEC_IN_SEC / freq

/-- The three timestamps produced by finalizing one call. -/
structure ZeTimingResult where
  duration : Nat
  host_start : Nat
  host_end : Nat
  deriving DecidableEq, Repr

/-- Timing part of `ZeKernelCollector::ProcessCall(const ZeKernelCall*)`
(ze_kernel_collector.h, lines 462-482).  `PTI_ASSERT(freq > 0)`,
`PTI_ASSERT(call->submit_time > 0)`, `PTI_ASSERT(call->device_submit_time > 0)` and
`PTI_ASSERT(start > call->device_submit_time)` are modelled as `none`. -/
def ProcessCallTiming (submit_time device_submit_time kstart kend freq : Nat) :
    Option ZeTimingResult :=
  if freq = 0 then none
  else
    let duration := ComputeDuration kstart kend freq
    if submit_time = 0 then none
    else if device_submit_time = 0 then none
    else if ¬ device_submit_time < kstart then none
    else
      let time_shift := u64mul (u64sub kstart device_submit_time) NSEC_IN_SEC / freq
      let host_start := u64add submit_time time_shift
      let host_end := u64add host_start duration
      some ⟨duration, host_start, host_end⟩

/-- `ZeKernelProps`: static properties of one traced operation. -/
structure ZeKernelProps where
  name : String
  simd_width : Nat
  bytes_transferred : Nat
  group_count : Nat × Nat × Nat
  group_size : Nat × Nat × Nat
  deriving DecidableEq, Repr

/-- `ZeKernelCollector::GetVerboseName`: kernel launches are suffixed with
SIMD width, group count and group size; transfers with a byte count. -/
def GetVerboseName (name : String) (props : ZeKernelProps) : String :=
  if 0 < props.simd_width then
    name ++ "[SIMD" ++ toString props.simd_width ++ " \x7b" ++
      toString props.group_count.1 ++ "; " ++
      toString props.group_count.2.1 ++ "; " ++
      toString props.group_count.2.2 ++ "\x7d \x7b" ++
      toString props.group_size.1 ++ "; " ++
      toString props.group_size.2.1 ++ "; " ++
      toString props.group_size.2.2 ++ "\x7d]"
  else if 0 < props.bytes_transferred then
    name ++ "[" ++ toString props.bytes_transferred ++ " bytes]"
  else
    name

/-- Name under which a command is aggregated: the verbose name when the
collector was created with `verbose = true`, the plain name otherwise
(the prologue of `AddKernelInfo` / `AddKernelInterval`). -/
def ResolveName (verbose : Bool) (props : ZeKernelProps) : String :=
  if verbose then GetVerboseName props.name props else props.name

/-- `ZeKernelInfo`: aggregated per-name statistics. -/
structure ZeKernelInfo where
  total_time : Nat
  min_time : Nat
  max_time : Nat
  call_count : Nat
  deriving DecidableEq, Repr

/-- `ZeKernelCollector::AddKernelInfo` (ze_kernel_collector.h, lines 553-576):
create `{time, time, time, 1}` on first sight of a name, otherwise add the
duration to `total_time`, update `min_time`/`max_time` and bump `call_count`.
The map is modelled as a function from names. -/
def AddKernelInfo (verbose : Bool) (m : String → Option ZeKernelInfo)
    (time : Nat) (props : ZeKernelProps) : String → Option ZeKernelInfo :=
  let name := ResolveName verbose props
  fun n =>
    if n = name then
      match m name with
      | none => some ⟨time, time, time, 1⟩
      | some kernel =>
        some ⟨u64add kernel.total_time time,
              if time < kernel.min_time then time else kernel.min_time,
              if kernel.max_time < time then time else kernel.max_time,
              u64add kernel.call_count 1⟩
    else m n

/-- `ZeKernelCommand`: one traced operation appended to a command list.
Handles (`event_pool`, `event`, `device`) are natural numbers; a `none`
event pool means the signal event was supplied by the caller and is not
owned by the collector. -/
structure ZeKernelCommand where
  props : ZeKernelProps
  event_pool : Option Nat
  event : Nat
  device : Nat
  kernel_id : Nat
  append_time : Nat
  timer_frequency : Nat
  call_count : Nat
  deriving DecidableEq, Repr

/-- `ZeKernelCall`: one submission of a command; `command` is the id of the
referenced `ZeKernelCommand` in the collector's command store. -/
structure ZeKernelCall where
  command : Nat
  queue : Nat
  submit_time : Nat
  device_submit_time : Nat
  call_id : Nat
  deriving DecidableEq, Repr

/-- `ZeCommandListInfo`: per-command-list record; `kernel_command_list` holds
the ids of the owned commands. -/
structure ZeCommandListInfo where
  kernel_command_list : List Nat
  context : Nat
  device : Nat
  immediate : Bool
  deriving DecidableEq, Repr

/-- `ZeDeviceInterval`: one per-sub-device slice of a resolved time window. -/
structure ZeDeviceInterval where
  start : Nat
  end_ : Nat
  sub_device_id : Nat
  deriving DecidableEq, Repr

/-- `ZeKernelInterval`: a resolved time window attributed to a named kernel. -/
structure ZeKernelInterval where
  kernel_name : String
  device : Nat
  device_interval_list : List ZeDeviceInterval
  deriving DecidableEq, Repr

/-- Driver environment: the completion status returned by
`zeEventQueryStatus` and the device-domain kernel start/end ticks returned
by `zeEventQueryKernelTimestamp`, per event handle. -/
structure ZeEnv where
  eventStatus : Nat → ZeResult
  kernelTimestamp : Nat → Nat × Nat

/-- Linear search of `device_map_` for the parent of a sub-device handle,
returning the parent handle and the sub-device index
(`AddKernelInterval`, lines 650-664). -/
def FindSubDevice (device : Nat) : List (Nat × List Nat) → Option (Nat × Nat)
  | [] => none
  | entry :: rest =>
    match entry.2.findIdx? (fun d => d == device) with
    | some i => some (entry.1, i)
    | none => FindSubDevice device rest

/-- `ZeKernelCollector::AddKernelInterval` (ze_kernel_collector.h, lines
579-675).  The interval window is `start_ns = kernel_start_ticks * 1e9 / freq`
and `end_ns = start_ns + duration` in the device clock domain.  A device with
a non-empty sub-device list gets one slice per sub-device (implicit scaling),
a sub-device handle gets one slice indexed inside its parent, a device
without sub-devices gets a single slice with id 0.  The three source branches
duplicate the same tick conversion; it is written once here.  `PTI_ASSERT`
failures (empty name, unsignaled event, zero frequency, `start_ns >= end_ns`,
sub-device ids overflowing `uint32_t`, unknown device) are `none`. -/
def AddKernelInterval (verbose : Bool) (dm : List (Nat × List Nat)) (env : ZeEnv)
    (command : ZeKernelCommand) : Option ZeKernelInterval :=
  if command.props.name = "" then none
  else
    let name := ResolveName verbose command.props
    if ¬ env.eventStatus command.event = ZeResult.success then none
    else
      let kstart := (env.kernelTimestamp command.event).1
      let kend := (env.kernelTimestamp command.event).2
      let freq := command.timer_frequency
      if freq = 0 then none
      else
        let duration := ComputeDuration kstart kend freq
        let start_ns := u64mul kstart NSEC_IN_SEC / freq
        let end_ns := u64add start_ns duration
        if ¬ start_ns < end_ns then none
        else
          match dm.lookup command.device with
          | some subs =>
            if subs = [] then
              some ⟨name, command.device, [⟨start_ns, end_ns, 0⟩]⟩
            else
              if U32 - 1 < subs.length then none
              else
                some ⟨name, command.device,
                      (List.range subs.length).map (fun i => ⟨start_ns, end_ns, i⟩)⟩
          | none =>
            match FindSubDevice command.device dm with
            | some pi =>
              if U32 - 1 ≤ pi.2 then none
              else some ⟨name, pi.1, [⟨start_ns, end_ns, pi.2⟩]⟩
            | none => none

/-- Mutable state of `ZeKernelCollector` relevant to the completion tracker:
the heap of live commands (freed commands map to `none`), the command-list
table, the pending-call list, the per-name statistics and the interval list. -/
structure CollectorState where
  verbose : Bool
  commands : Nat → Option ZeKernelCommand
  command_list_map : Nat → Option ZeCommandListInfo
  kernel_call_list : List ZeKernelCall
  kernel_info_map : String → Option ZeKernelInfo
  kernel_interval_list : List ZeKernelInterval

/-- Completion status a pending call observes: `none` when its command has
been freed, otherwise the status of the command's event. -/
def CallStatus (env : ZeEnv) (s : CollectorState) (c : ZeKernelCall) :
    Option ZeResult :=
  (s.commands c.command).map (fun cmd => env.eventStatus cmd.event)

/-- `ZeKernelCollector::ProcessCall(const ZeKernelCall*)` (lines 449-505):
re-assert the event is signaled, read the kernel timestamp, compute the
host-anchored window, update the per-name statistics with
`host_end - host_start` and append one kernel interval.  The finish callback
(absent in oneprof) is an external side effect and not modelled.
The pending-list erase is done by the callers, as in the source. -/
def ProcessCall (env : ZeEnv) (dm : List (Nat × List Nat))
    (s : CollectorState) (call : ZeKernelCall) : Option CollectorState :=
  (s.commands call.command).bind (fun command =>
    if ¬ env.eventStatus command.event = ZeResult.success then none
    else
      (ProcessCallTiming call.submit_time call.device_submit_time
          (env.kernelTimestamp command.event).1
          (env.kernelTimestamp command.event).2
          command.timer_frequency).bind (fun t =>
        if command.props.name = "" then none
        else
          (AddKernelInterval s.verbose dm env command).bind (fun interval =>
            some { s with
              kernel_info_map :=
                AddKernelInfo s.verbose s.kernel_info_map
                  (u64sub t.host_end t.host_start) command.props,
              kernel_interval_list := s.kernel_interval_list ++ [interval] })))

/-- Loop body of `ZeKernelCollector::ProcessCalls` (lines 507-529): walk the
pending list, skip `ZE_RESULT_NOT_READY` calls, finalize and drop
`ZE_RESULT_SUCCESS` calls, and fail (`PTI_ASSERT(0)`) on any other status.
Returns the final state and the surviving pending list. -/
def SweepGo (env : ZeEnv) (dm : List (Nat × List Nat)) :
    CollectorState → List ZeKernelCall → Option (CollectorState × List ZeKernelCall)
  | s, [] => some (s, [])
  | s, call :: rest =>
    (s.commands call.command).bind (fun command =>
      if env.eventStatus command.event = ZeResult.notReady then
        (SweepGo env dm s rest).map (fun p => (p.1, call :: p.2))
      else if env.eventStatus command.event = ZeResult.success then
        (ProcessCall env dm s call).bind (fun s2 => SweepGo env dm s2 rest)
      else none)

/-- `ZeKernelCollector::ProcessCalls`: sweep the whole pending list. -/
def ProcessCalls (env : ZeEnv) (dm : List (Nat × List Nat))
    (s : CollectorState) : Option CollectorState :=
  (SweepGo env dm s s.kernel_call_list).map
    (fun p => { p.1 with kernel_call_list := p.2 })

/-- Finalize a given list of calls in order (specification helper used to
state what a sweep does to the signaled calls). -/
def FinalizeList (env : ZeEnv) (dm : List (Nat × List Nat)) :
    CollectorState → List ZeKernelCall → Option CollectorState
  | s, [] => some s
  | s, call :: rest =>
    (ProcessCall env dm s call).bind (fun s2 => FinalizeList env dm s2 rest)

/-- Loop of `ZeKernelCollector::ProcessCall(ze_event_handle_t)` (lines
434-446): find the first pending call whose command uses the event, finalize
it and drop it from the pending list (`break`). -/
def ProcessEventGo (env : ZeEnv) (dm : List (Nat × List Nat)) (event : Nat)
    (s : CollectorState) :
    List ZeKernelCall → Option (CollectorState × List ZeKernelCall)
  | [] => some (s, [])
  | call :: rest =>
    (s.commands call.command).bind (fun command =>
      if command.event = event then
        (ProcessCall env dm s call).bind (fun s2 => some (s2, rest))
      else
        (ProcessEventGo env dm event s rest).map (fun p => (p.1, call :: p.2)))

/-- `ZeKernelCollector::ProcessCall(ze_event_handle_t)` (lines 424-447):
return the state unchanged when the event is not signaled, otherwise
finalize the single matching pending call. -/
def ProcessCallEvent (env : ZeEnv) (dm : List (Nat × List Nat))
    (s : CollectorState) (event : Nat) : Option CollectorState :=
  if ¬ env.eventStatus event = ZeResult.success then some s
  else
    (ProcessEventGo env dm event s s.kernel_call_list).map
      (fun p => { p.1 with kernel_call_list := p.2 })

/-- Loop of `ZeKernelCollector::RemoveKernelCommands` (lines 699-713):
free each owned command (destroying its event only when the pool is owned,
an external effect), after asserting that no pending call still references
it (`PTI_ASSERT(call->command != command)`). -/
def RemoveKernelCommandsGo (calls : List ZeKernelCall)
    (commands : Nat → Option ZeKernelCommand) :
    List Nat → Option (Nat → Option ZeKernelCommand)
  | [] => some commands
  | cid :: rest =>
    if calls.all (fun c => c.command != cid) then
      RemoveKernelCommandsGo calls (fun i => if i = cid then none else commands i) rest
    else none

/-- `ZeKernelCollector::RemoveKernelCommands` (lines 694-715): free all
commands owned by a command list and clear its command sequence. -/
def RemoveKernelCommands (s : CollectorState) (h : Nat) : Option CollectorState :=
  (s.command_list_map h).bind (fun info =>
    (RemoveKernelCommandsGo s.kernel_call_list s.commands
        info.kernel_command_list).bind (fun commands2 =>
      some { s with
        commands := commands2,
        command_list_map := fun l =>
          if l = h then some { info with kernel_command_list := [] }
          else s.command_list_map l }))

/-- `ZeKernelCollector::ResetCommandList` (lines 730-740); the correlator
id-list resets are external. -/
def ResetCommandList (s : CollectorState) (h : Nat) : Option CollectorState :=
  RemoveKernelCommands s h

/-- `ZeKernelCollector::RemoveCommandList` (lines 717-728): free the owned
commands and erase the command-list entry. -/
def RemoveCommandList (s : CollectorState) (h : Nat) : Option CollectorState :=
  (RemoveKernelCommands s h).bind (fun s2 =>
    some { s2 with
      command_list_map := fun l => if l = h then none else s2.command_list_map l })

/-- `OnExitCommandListReset` success path (lines 1455-1466): a full sweep,
then the reset of the command list. -/
def OnExitCommandListReset (env : ZeEnv) (dm : List (Nat × List Nat))
    (s : CollectorState) (h : Nat) : Option CollectorState :=
  (ProcessCalls env dm s).bind (fun s2 => ResetCommandList s2 h)

/-- `OnExitCommandListDestroy` success path (lines 1442-1453): a full sweep,
then the removal of the command list. -/
def OnExitCommandListDestroy (env : ZeEnv) (dm : List (Nat × List Nat))
    (s : CollectorState) (h : Nat) : Option CollectorState :=
  (ProcessCalls env dm s).bind (fun s2 => RemoveCommandList s2 h)

/-- The value kinds of `zet_value_type_t` used by the profiler. -/
inductive ZetValueType where
  | uint32
  | uint64
  | float32
  | float64
  | bool8
  deriving DecidableEq, Repr

/-- `zet_typed_value_t`.  Floating-point payloads are modelled with exact
rationals; IEEE rounding of the `double` accumulators is not modelled. -/
inductive ZetTypedValue where
  | ui32 (v : Nat)
  | ui64 (v : Nat)
  | fp32 (v : ℚ)
  | fp64 (v : ℚ)
  | b8 (v : Bool)
  deriving DecidableEq

/-- The `type` tag of a typed value. -/
def ZetTypedValue.valueType : ZetTypedValue → ZetValueType
  | .ui32 _ => .uint32
  | .ui64 _ => .uint64
  | .fp32 _ => .float32
  | .fp64 _ => .float64
  | .b8 _ => .bool8

/-- Read a value asserted to be `ZET_VALUE_TYPE_UINT32`. -/
def ZetTypedValue.asUi32 : ZetTypedValue → Option Nat
  | .ui32 v => some v
  | _ => none

/-- Read a value asserted to be `ZET_VALUE_TYPE_UINT64`. -/
def ZetTypedValue.asUi64 : ZetTypedValue → Option Nat
  | .ui64 v => some v
  | _ => none

/-- Read a value asserted to be `ZET_VALUE_TYPE_FLOAT32`. -/
def ZetTypedValue.asFp32 : ZetTypedValue → Option ℚ
  | .fp32 v => some v
  | _ => none

/-- Read a value asserted to be `ZET_VALUE_TYPE_FLOAT64`. -/
def ZetTypedValue.asFp64 : ZetTypedValue → Option ℚ
  | .fp64 v => some v
  | _ => none

/-- UINT32 branch accumulator of `Profiler::ComputeAverageValue`
(profiler.h, lines 578-593): `total += value.ui32 * clocks.ui64` over the
first `n` reports of the flat report vector, in unsigned 64-bit arithmetic. -/
def SumWeightedUi32 (rl : List ZetTypedValue) (rsz mid cid : Nat) :
    Nat → Option Nat
  | 0 => some 0
  | j + 1 =>
    (SumWeightedUi32 rl rsz mid cid j).bind (fun total =>
      ((rl.get? (j * rsz + mid)).bind ZetTypedValue.asUi32).bind (fun v =>
        ((rl.get? (j * rsz + cid)).bind ZetTypedValue.asUi64).bind (fun c =>
          some (u64add total (u64mul v c)))))

/-- UINT64 branch accumulator of `Profiler::ComputeAverageValue`
(lines 594-609). -/
def SumWeightedUi64 (rl : List ZetTypedValue) (rsz mid cid : Nat) :
    Nat → Option Nat
  | 0 => some 0
  | j + 1 =>
    (SumWeightedUi64 rl rsz mid cid j).bind (fun total =>
      ((rl.get? (j * rsz + mid)).bind ZetTypedValue.asUi64).bind (fun v =>
        ((rl.get? (j * rsz + cid)).bind ZetTypedValue.asUi64).bind (fun c =>
          some (u64add total (u64mul v c)))))

/-- FLOAT32 branch accumulator of `Profiler::ComputeAverageValue`
(lines 610-625), with exact rational accumulation standing for `double`. -/
def SumWeightedFp32 (rl : List ZetTypedValue) (rsz mid cid : Nat) :
    Nat → Option ℚ
  | 0 => some 0
  | j + 1 =>
    (SumWeightedFp32 rl rsz mid cid j).bind (fun total =>
      ((rl.get? (j * rsz + mid)).bind ZetTypedValue.asFp32).bind (fun v =>
        ((rl.get? (j * rsz + cid)).bind ZetTypedValue.asUi64).bind (fun c =>
          some (total + v * (c : ℚ)))))

/-- FLOAT64 branch accumulator of `Profiler::ComputeAverageValue`
(lines 626-641). -/
def SumWeightedFp64 (rl : List ZetTypedValue) (rsz mid cid : Nat) :
    Nat → Option ℚ
  | 0 => some 0
  | j + 1 =>
    (SumWeightedFp64 rl rsz mid cid j).bind (fun total =>
      ((rl.get? (j * rsz + mid)).bind ZetTypedValue.asFp64).bind (fun v =>
        ((rl.get? (j * rsz + cid)).bind ZetTypedValue.asUi64).bind (fun c =>
          some (total + v * (c : ℚ)))))

/-- `Profiler::ComputeAverageValue` (profiler.h, lines 561-649): the
clock-weighted average of one metric column over the matching reports,
`Σ(value_i * clocks_i) / total_clocks`, dispatching on the value type of the
first report and widening to `uint64` or `double`.  All `PTI_ASSERT`s
(including `total_clocks > 0`) are `none`. -/
def ComputeAverageValue (metric_id : Nat) (report_list : List ZetTypedValue)
    (report_size : Nat) (total_clocks : Nat) (gpu_clocks_id : Nat) :
    Option ZetTypedValue :=
  if report_list.length = 0 then none
  else if report_size = 0 then none
  else if ¬ metric_id < report_size then none
  else if ¬ gpu_clocks_id < report_size then none
  else if total_clocks = 0 then none
  else
    let report_count := report_list.length / report_size
    if ¬ report_count * report_size = report_list.length then none
    else
      if (report_list.get? metric_id).map ZetTypedValue.valueType
          = some ZetValueType.uint32 then
        (SumWeightedUi32 report_list report_size metric_id gpu_clocks_id
            report_count).map (fun t => ZetTypedValue.ui64 (t / total_clocks))
      else if (report_list.get? metric_id).map ZetTypedValue.valueType
          = some ZetValueType.uint64 then
        (SumWeightedUi64 report_list report_size metric_id gpu_clocks_id
            report_count).map (fun t => ZetTypedValue.ui64 (t / total_clocks))
      else if (report_list.get? metric_id).map ZetTypedValue.valueType
          = some ZetValueType.float32 then
        (SumWeightedFp32 report_list report_size metric_id gpu_clocks_id
            report_count).map (fun t => ZetTypedValue.fp64 (t / (total_clocks : ℚ)))
      else if (report_list.get? metric_id).map ZetTypedValue.valueType
          = some ZetValueType.float64 then
        (SumWeightedFp64 report_list report_size metric_id gpu_clocks_id
            report_count).map (fun t => ZetTypedValue.fp64 (t / (total_clocks : ℚ)))
      else none

/-- UINT32 branch accumulator of `Profiler::ComputeTotalValue`
(profiler.h, lines 664-676): `total += value.ui32` widened to `uint64`. -/
def SumUi32 (rl : List ZetTypedValue) (rsz mid : Nat) : Nat → Option Nat
  | 0 => some 0
  | j + 1 =>
    (SumUi32 rl rsz mid j).bind (fun total =>
      ((rl.get? (j * rsz + mid)).bind ZetTypedValue.asUi32).bind (fun v =>
        some (u64add total v)))

/-- UINT64 branch accumulator of `Profiler::ComputeTotalValue`
(lines 677-689). -/
def SumUi64 (rl : List ZetTypedValue) (rsz mid : Nat) : Nat → Option Nat
  | 0 => some 0
  | j + 1 =>
    (SumUi64 rl rsz mid j).bind (fun total =>
      ((rl.get? (j * rsz + mid)).bind ZetTypedValue.asUi64).bind (fun v =>
        some (u64add total v)))

/-- FLOAT32 branch accumulator of `Profiler::ComputeTotalValue`
(lines 690-702). -/
def SumFp32 (rl : List ZetTypedValue) (rsz mid : Nat) : Nat → Option ℚ
  | 0 => some 0
  | j + 1 =>
    (SumFp32 rl rsz mid j).bind (fun total =>
      ((rl.get? (j * rsz + mid)).bind ZetTypedValue.asFp32).bind (fun v =>
        some (total + v)))

/-- FLOAT64 branch accumulator of `Profiler::ComputeTotalValue`
(lines 703-715). -/
def SumFp64 (rl : List ZetTypedValue) (rsz mid : Nat) : Nat → Option ℚ
  | 0 => some 0
  | j + 1 =>
    (SumFp64 rl rsz mid j).bind (fun total =>
      ((rl.get? (j * rsz + mid)).bind ZetTypedValue.asFp64).bind (fun v =>
        some (total + v)))

/-- `Profiler::ComputeTotalValue` (profiler.h, lines 651-723): the sum of
one metric column over the matching reports, widening to `uint64` or
`double` by the first report's value type. -/
def ComputeTotalValue (metric_id : Nat) (report_list : List ZetTypedValue)
    (report_size : Nat) : Option ZetTypedValue :=
  if report_list.length = 0 then none
  else if report_size = 0 then none
  else if ¬ metric_id < report_size then none
  else
    let report_count := report_list.length / report_size
    if ¬ report_count * report_size = report_list.length then none
    else
      if (report_list.get? metric_id).map ZetTypedValue.valueType
          = some ZetValueType.uint32 then
        (SumUi32 report_list report_size metric_id report_count).map
          ZetTypedValue.ui64
      else if (report_list.get? metric_id).map ZetTypedValue.valueType
          = some ZetValueType.uint64 then
        (SumUi64 report_list report_size metric_id report_count).map
          ZetTypedValue.ui64
      else if (report_list.get? metric_id).map ZetTypedValue.valueType
          = some ZetValueType.float32 then
        (SumFp32 report_list report_size metric_id report_count).map
          ZetTypedValue.fp64
      else if (report_list.get? metric_id).map ZetTypedValue.valueType
          = some ZetValueType.float64 then
        (SumFp64 report_list report_size metric_id report_count).map
          ZetTypedValue.fp64
      else none

/-- `zet_metric_type_t` values distinguished by the aggregator;
`ratioMetric` stands for `ZET_METRIC_TYPE_RATIO`. -/
inductive ZetMetricType where
  | duration
  | event
  | eventWithRange
  | throughput
  | timestamp
  | flag
  | ratioMetric
  | raw
  deriving DecidableEq, Repr

/-- Per-report filter loop of `Profiler::GetMetricInterval` (profiler.h,
lines 441-451): keep every report whose time field lies in
`[start, end]`, asserting the time field is `uint64`. -/
def ChunkFilter (chunk : List ZetTypedValue) (rsz time_id start end_ : Nat) :
    Nat → Option (List ZetTypedValue)
  | 0 => some []
  | i + 1 =>
    (ChunkFilter chunk rsz time_id start end_ i).bind (fun acc =>
      ((chunk.get? (i * rsz + time_id)).bind ZetTypedValue.asUi64).bind (fun t =>
        if start ≤ t ∧ t ≤ end_ then
          some (acc ++ (chunk.drop (i * rsz)).take rsz)
        else some acc))

/-- Chunk loop of `Profiler::GetMetricInterval` (lines 418-452): skip a
chunk when its first report is after the window or its last report is
before it, otherwise keep the in-window reports. -/
def GetMetricIntervalGo (start end_ rsz time_id : Nat) :
    List (List ZetTypedValue) → Option (List ZetTypedValue)
  | [] => some []
  | chunk :: rest =>
    if chunk.length = 0 then some []
    else
      let rc := chunk.length / rsz
      if ¬ rc * rsz = chunk.length then none
      else
        ((chunk.get? time_id).bind ZetTypedValue.asUi64).bind (fun t1 =>
          if end_ < t1 then GetMetricIntervalGo start end_ rsz time_id rest
          else
            ((chunk.get? ((rc - 1) * rsz + time_id)).bind
                ZetTypedValue.asUi64).bind (fun t2 =>
              if t2 < start then GetMetricIntervalGo start end_ rsz time_id rest
              else
                (ChunkFilter chunk rsz time_id start end_ rc).bind (fun picked =>
                  (GetMetricIntervalGo start end_ rsz time_id rest).map
                    (fun l => picked ++ l))))

/-- `Profiler::GetMetricInterval` (profiler.h, lines 406-455): all raw
reports whose time field falls within `[start, end]`, reading the report
stream as a sequence of chunks. -/
def GetMetricInterval (chunks : List (List ZetTypedValue))
    (start end_ rsz time_id : Nat) : Option (List ZetTypedValue) :=
  if ¬ start < end_ then none
  else if rsz = 0 then none
  else GetMetricIntervalGo start end_ rsz time_id chunks

/-- The `total_clocks` accumulation of `Profiler::GetAggregatedMetrics`
(profiler.h, lines 753-758): sum of the `GpuCoreClocks` column over the
first `n` matching reports, asserting the column is `uint64`. -/
def SumGpuClocks (rl : List ZetTypedValue) (rsz cid : Nat) : Nat → Option Nat
  | 0 => some 0
  | j + 1 =>
    (SumGpuClocks rl rsz cid j).bind (fun total =>
      ((rl.get? (j * rsz + cid)).bind ZetTypedValue.asUi64).bind (fun c =>
        some (u64add total c)))

/-- Column dispatch of `Profiler::GetAggregatedMetrics` (lines 762-800):
`GpuTime` is summed, `AvgGpuCoreFrequencyMHz` is clock-weight averaged,
`ReportReason` passes the first report's value through; otherwise the
metric type selects averaging (duration, ratio), summing (throughput,
event), first-value pass-through (timestamp, raw), or leaves the
value-initialized `zet_typed_value_t` (uint32 zero) in place
(event-with-range, flag). -/
def AggregateColumn (metric_list : List String)
    (metric_type_list : List ZetMetricType) (report_list : List ZetTypedValue)
    (report_size total_clocks gpu_clocks_id i : Nat) : Option ZetTypedValue :=
  if metric_list.get? i = some "GpuTime" then
    ComputeTotalValue i report_list report_size
  else if metric_list.get? i = some "AvgGpuCoreFrequencyMHz" then
    ComputeAverageValue i report_list report_size total_clocks gpu_clocks_id
  else if metric_list.get? i = some "ReportReason" then
    report_list.get? i
  else
    match metric_type_list.get? i with
    | some ZetMetricType.duration =>
      ComputeAverageValue i report_list report_size total_clocks gpu_clocks_id
    | some ZetMetricType.ratioMetric =>
      ComputeAverageValue i report_list report_size total_clocks gpu_clocks_id
    | some ZetMetricType.throughput =>
      ComputeTotalValue i report_list report_size
    | some ZetMetricType.event =>
      ComputeTotalValue i report_list report_size
    | some ZetMetricType.timestamp => report_list.get? i
    | some ZetMetricType.raw => report_list.get? i
    | some ZetMetricType.eventWithRange => some (ZetTypedValue.ui32 0)
    | some ZetMetricType.flag => some (ZetTypedValue.ui32 0)
    | none => none

/-- Build the aggregated row column by column (lines 760-800). -/
def BuildAggregatedReport (metric_list : List String)
    (metric_type_list : List ZetMetricType) (report_list : List ZetTypedValue)
    (report_size total_clocks gpu_clocks_id : Nat) :
    Nat → Option (List ZetTypedValue)
  | 0 => some []
  | i + 1 =>
    (BuildAggregatedReport metric_list metric_type_list report_list
        report_size total_clocks gpu_clocks_id i).bind (fun acc =>
      (AggregateColumn metric_list metric_type_list report_list
          report_size total_clocks gpu_clocks_id i).bind (fun v =>
        some (acc ++ [v])))

/-- `Profiler::GetAggregatedMetrics` (profiler.h, lines 725-803): select the
reports in `[start, end]`, return an empty row list when none match,
otherwise accumulate `total_clocks` and combine each column. -/
def GetAggregatedMetrics (chunks : List (List ZetTypedValue))
    (start end_ rsz time_id gpu_clocks_id : Nat)
    (metric_list : List String) (metric_type_list : List ZetMetricType) :
    Option (List ZetTypedValue) :=
  if ¬ start < end_ then none
  else if rsz = 0 then none
  else if ¬ metric_list.length = rsz then none
  else if ¬ metric_type_list.length = rsz then none
  else
    (GetMetricInterval chunks start end_ rsz time_id).bind (fun report_list =>
      let report_count := report_list.length / rsz
      if ¬ report_count * rsz = report_list.length then none
      else if report_count = 0 then some []
      else
        (SumGpuClocks report_list rsz gpu_clocks_id report_count).bind
          (fun total_clocks =>
            BuildAggregatedReport metric_list metric_type_list report_list
              rsz total_clocks gpu_clocks_id rsz))

/-- Example operation properties used by concrete witnesses. -/
def exProps : ZeKernelProps := ⟨"kernelA", 0, 0, (0, 0, 0), (0, 0, 0)⟩

/-- Example command with an owned event 10 on device 0. -/
def exCmd0 : ZeKernelCommand := ⟨exProps, some 100, 10, 0, 1, 1, 1000000000, 1⟩

/-- Example command with a borrowed event 11 on device 0. -/
def exCmd1 : ZeKernelCommand := ⟨exProps, none, 11, 0, 2, 1, 1000000000, 1⟩

/-- Example call of command 0 (submit anchor host 1000, device 500). -/
def exCall0 : ZeKernelCall := ⟨0, 0, 1000, 500, 1⟩

/-- Example call of command 1 (submit anchor host 1000, device 500). -/
def exCall1 : ZeKernelCall := ⟨1, 0, 1000, 500, 1⟩

/-- Example device map: device 0 has no sub-devices. -/
def exDm : List (Nat × List Nat) := [(0, [])]

/-- Environment where every event is signaled with kernel ticks 600..900. -/
def exEnvAll : ZeEnv := ⟨fun _ => ZeResult.success, fun _ => (600, 900)⟩

/-- Environment where only event 11 is signaled (ticks 600..900). -/
def exEnvSel : ZeEnv :=
  ⟨fun e => if e = 11 then ZeResult.success else ZeResult.notReady,
   fun _ => (600, 900)⟩

/-- Example command store holding commands 0 and 1. -/
def exCommands : Nat → Option ZeKernelCommand :=
  fun i => if i = 0 then some exCmd0 else if i = 1 then some exCmd1 else none

/-- Example command-list record: list 0 owns command 0. -/
def exInfo : ZeCommandListInfo := ⟨[0], 0, 0, false⟩

/-- Example command-list table with one deferred list. -/
def exListMap : Nat → Option ZeCommandListInfo :=
  fun l => if l = 0 then some exInfo else none

/-- Example state with one pending call (of command 0). -/
def exState1 : CollectorState :=
  ⟨false, exCommands, exListMap, [exCall0], fun _ => none, []⟩

/-- Example state with two pending calls (of commands 0 and 1). -/
def exState2 : CollectorState :=
  ⟨false, exCommands, exListMap, [exCall0, exCall1], fun _ => none, []⟩

theorem u64sub_of_le {a b : Nat} (hba : b ≤ a) (ha : a < U64) :
    u64sub a b = a - b := by
  unfold u64sub
  have hb : b < U64 := lt_of_le_of_lt hba ha
  rw [Nat.mod_eq_of_lt hb]
  have h1 : a + U64 - b = (a - b) + U64 := by omega
  rw [h1, Nat.add_mod_right, Nat.mod_eq_of_lt (by omega)]

theorem u64add_of_lt {a b : Nat} (h : a + b < U64) : u64add a b = a + b := by
  unfold u64add; exact Nat.mod_eq_of_lt h

theorem u64mul_of_lt {a b : Nat} (h : a * b < U64) : u64mul a b = a * b := by
  unfold u64mul; exact Nat.mod_eq_of_lt h

/-- C1: for every Call finalized by `ProcessCall`, the host-anchored window is
`time_shift = (kernel_start_ticks - device_submit_ticks) * 1e9 / freq`,
`host_start = submit_host_time + time_shift`, `host_end = host_start + duration`;
the precondition `kernel_start_ticks > device_submit_ticks` is required, and a
violation of it is a fatal internal error (modelled as `none`). -/
theorem processCallTiming_host_anchoring
    (submit dst kstart kend freq : Nat)
    (hfreq : 0 < freq) (hsubmit : 0 < submit) (hdst : 0 < dst)
    (hmono : dst < kstart) (hk : kstart < U64)
    (hshift : (kstart - dst) * NSEC_IN_SEC < U64)
    (hhs : submit + (kstart - dst) * NSEC_IN_SEC / freq < U64)
    (hhe : submit + (kstart - dst) * NSEC_IN_SEC / freq
            + ComputeDuration kstart kend freq < U64) :
    ProcessCallTiming submit dst kstart kend freq =
      some ⟨ComputeDuration kstart kend freq,
            submit + (kstart - dst) * NSEC_IN_SEC / freq,
            submit + (kstart - dst) * NSEC_IN_SEC / freq
              + ComputeDuration kstart kend freq⟩
    ∧ (∀ s d ks ke f : Nat, ¬ d < ks →
        ProcessCallTiming s d ks ke f = none) := by
  constructor
  · unfold ProcessCallTiming
    rw [if_neg (by omega), if_neg (by omega), if_neg (by omega),
        if_neg (by simpa using hmono)]
    dsimp only
    rw [u64sub_of_le (le_of_lt hmono) hk, u64mul_of_lt hshift,
        u64add_of_lt hhs, u64add_of_lt hhe]
  · intro s d ks ke f h
    unfold ProcessCallTiming
    split_ifs <;> simp_all

/-- Witness for C1 at the spec's end-to-end example: submit anchor
(host 1000, device 500), kernel ticks 600..900 at 1 GHz gives the window
`[1100, 1400)` of length 300 ns. -/
theorem processCallTiming_host_anchoring_witness :
    ProcessCallTiming 1000 500 600 900 1000000000 = some ⟨300, 1100, 1400⟩ := by
  have h := (processCallTiming_host_anchoring 1000 500 600 900 1000000000
    (by decide) (by decide) (by decide) (by decide) (by decide)
    (by decide) (by decide) (by decide)).1
  exact h.trans (by decide)

/-- C2 counterexample: the claim states the wraparound delta `2^32 + end - start`
is used only when `end < start`, and `end - start` otherwise; but at
`start = end = 5` (freq 1 GHz) the code takes the wraparound branch and yields
`2^32` ns, not `0` ns. -/
theorem computeDuration_boundary_counterexample :
    ¬ (ComputeDuration 5 5 1000000000 =
        (if (5 : Nat) < 5 then U32 + 5 - 5 else 5 - 5) * NSEC_IN_SEC
          / 1000000000) := by
  decide

/-- C2 (amended): the wraparound delta `2^32 + end - start` is used whenever
`end ≤ start` (not only `end < start`); for `start < end` the delta is
`end - start`; in both cases it is scaled by `1e9 / freq` in unsigned 64-bit
arithmetic, which for 32-bit tick values never overflows. -/
theorem computeDuration_wraparound (kstart kend freq : Nat)
    (_hfreq : 0 < freq) (hs : kstart < U32) (he : kend < U32) :
    ComputeDuration kstart kend freq =
      (if kstart < kend then kend - kstart else U32 + kend - kstart)
        * NSEC_IN_SEC / freq := by
  have hU : U32 * NSEC_IN_SEC + U32 * NSEC_IN_SEC < U64 := by decide
  have h32 : U32 < U64 := by decide
  unfold ComputeDuration
  split_ifs with h
  · rw [u64sub_of_le (le_of_lt h) (lt_trans he h32)]
    rw [u64mul_of_lt (by
      have : (kend - kstart) * NSEC_IN_SEC ≤ U32 * NSEC_IN_SEC :=
        Nat.mul_le_mul_right _ (by omega)
      omega)]
  · have hadd : u64add U32 kend = U32 + kend := u64add_of_lt (by
      unfold U32 U64 at *; omega)
    rw [hadd, u64sub_of_le (by omega) (by unfold U32 U64 at *; omega)]
    rw [u64mul_of_lt (by
      have : (U32 + kend - kstart) * NSEC_IN_SEC ≤ (U32 + U32) * NSEC_IN_SEC :=
        Nat.mul_le_mul_right _ (by omega)
      have h2 : (U32 + U32) * NSEC_IN_SEC = U32 * NSEC_IN_SEC + U32 * NSEC_IN_SEC := by
        ring
      omega)]

/-- Witness for C2's amended theorem: a simulated wraparound `start = 4000000000`,
`end = 1000000000` at 1 GHz yields `(2^32 + 1000000000 - 4000000000)` ns. -/
theorem computeDuration_wraparound_witness :
    ComputeDuration 4000000000 1000000000 1000000000 =
      (U32 + 1000000000 - 4000000000) * NSEC_IN_SEC / 1000000000 := by
  have h := computeDuration_wraparound 4000000000 1000000000 1000000000
    (by decide) (by decide) (by decide)
  exact h.trans (by decide)

theorem ite_min (a b : Nat) : (if b < a then b else a) = min a b := by
  rcases Nat.lt_or_ge b a with h | h
  · rw [if_pos h, min_eq_right (le_of_lt h)]
  · rw [if_neg (by omega), min_eq_left h]

theorem ite_max (a b : Nat) : (if a < b then b else a) = max a b := by
  rcases Nat.lt_or_ge a b with h | h
  · rw [if_pos h, max_eq_right (le_of_lt h)]
  · rw [if_neg (by omega), max_eq_left h]

theorem addKernelInfo_fold_some (verbose : Bool) (name : String)
    (tps : List (Nat × ZeKernelProps)) :
    ∀ (m : String → Option ZeKernelInfo) (k : ZeKernelInfo),
    m name = some k →
    (∀ tp ∈ tps, ResolveName verbose tp.2 = name) →
    k.total_time + (tps.map Prod.fst).sum < U64 →
    k.call_count + tps.length < U64 →
    (tps.foldl (fun acc tp => AddKernelInfo verbose acc tp.1 tp.2) m) name =
      some ⟨k.total_time + (tps.map Prod.fst).sum,
            (tps.map Prod.fst).foldl min k.min_time,
            (tps.map Prod.fst).foldl max k.max_time,
            k.call_count + tps.length⟩ := by
  induction tps with
  | nil =>
    intro m k hm _ _ _
    simp only [List.foldl_nil, List.map_nil, List.sum_nil, Nat.add_zero,
      List.length_nil, List.foldl_nil]
    exact hm
  | cons tp rest ih =>
    intro m k hm hres hsum hcnt
    obtain ⟨d, p⟩ := tp
    have hnp : ResolveName verbose p = name := hres (d, p) (List.mem_cons_self _ _)
    have hrest : ∀ x ∈ rest, ResolveName verbose x.2 = name := by
      intro x hx; exact hres x (List.mem_cons_of_mem _ hx)
    have hsum2 : d + (rest.map Prod.fst).sum ≤ (((d, p) :: rest).map Prod.fst).sum := by
      simp
    have hT : u64add k.total_time d = k.total_time + d := by
      apply u64add_of_lt
      simp only [List.map_cons, List.sum_cons] at hsum
      omega
    have hC : u64add k.call_count 1 = k.call_count + 1 := by
      apply u64add_of_lt
      simp only [List.length_cons] at hcnt
      omega
    have hm2 :
        (AddKernelInfo verbose m d p) name =
          some ⟨k.total_time + d,
                min k.min_time d, max k.max_time d,
                k.call_count + 1⟩ := by
      unfold AddKernelInfo
      rw [hnp, if_pos rfl, hm]
      dsimp only
      rw [hT, hC, ite_min, ite_max]
    rw [List.foldl_cons]
    rw [ih (AddKernelInfo verbose m d p)
          ⟨k.total_time + d, min k.min_time d, max k.max_time d,
           k.call_count + 1⟩ hm2 hrest
          (by
            show k.total_time + d + (rest.map Prod.fst).sum < U64
            simp only [List.map_cons, List.sum_cons] at hsum; omega)
          (by
            show k.call_count + 1 + rest.length < U64
            simp only [List.length_cons] at hcnt; omega)]
    simp only [List.map_cons, List.sum_cons, List.foldl_cons, List.length_cons,
      Option.some.injEq, ZeKernelInfo.mk.injEq]
    refine ⟨by omega, by simp, by simp, by omega⟩

/-- C3: for a sequence of `N >= 1` completed calls resolving to one name with
durations `d_0 :: rest`, the resulting `ZeKernelInfo` entry has
`call_count = N`, `total_time = Σ d_i`, `min_time = min d_i` and
`max_time = max d_i`; the entry is created by the first completion and
updated by every later one. -/
theorem addKernelInfo_aggregates (verbose : Bool) (name : String)
    (m : String → Option ZeKernelInfo) (d0 : Nat) (p0 : ZeKernelProps)
    (rest : List (Nat × ZeKernelProps))
    (hm : m name = none)
    (hres : ∀ tp ∈ ((d0, p0) :: rest), ResolveName verbose tp.2 = name)
    (_hname : ¬ name = "")
    (hsum : d0 + (rest.map Prod.fst).sum < U64)
    (hlen : 1 + rest.length < U64) :
    (((d0, p0) :: rest).foldl
        (fun acc tp => AddKernelInfo verbose acc tp.1 tp.2) m) name =
      some ⟨d0 + (rest.map Prod.fst).sum,
            (rest.map Prod.fst).foldl min d0,
            (rest.map Prod.fst).foldl max d0,
            1 + rest.length⟩ := by
  have hnp : ResolveName verbose p0 = name := hres (d0, p0) (List.mem_cons_self _ _)
  have hm2 : (AddKernelInfo verbose m d0 p0) name = some ⟨d0, d0, d0, 1⟩ := by
    unfold AddKernelInfo
    rw [hnp, if_pos rfl, hm]
  rw [List.foldl_cons]
  rw [addKernelInfo_fold_some verbose name rest (AddKernelInfo verbose m d0 p0)
        ⟨d0, d0, d0, 1⟩ hm2
        (by intro x hx; exact hres x (List.mem_cons_of_mem _ hx))
        (by simpa using hsum) (by simpa using hlen)]

/-- Witness for C3: two completions of `kernelA` with durations 300 and 100
give `call_count = 2`, `total_time = 400`, `min_time = 100`, `max_time = 300`. -/
theorem addKernelInfo_aggregates_witness :
    (([((300 : Nat), exProps), (100, exProps)]).foldl
        (fun acc tp => AddKernelInfo false acc tp.1 tp.2)
        (fun _ => none)) "kernelA" = some ⟨400, 100, 300, 2⟩ := by
  have h := addKernelInfo_aggregates false "kernelA" (fun _ => none) 300 exProps
    [(100, exProps)] rfl (by decide) (by decide) (by decide) (by decide)
  exact h.trans (by decide)

theorem sum_map_take_le {α : Type} (f : α → Nat) (l : List α) (n : Nat) :
    ((l.take n).map f).sum ≤ (l.map f).sum := by
  conv_rhs => rw [← List.take_append_drop n l]
  rw [List.map_append, List.sum_append]
  exact Nat.le_add_right _ _

theorem sum_map_take_succ {α : Type} (f : α → Nat) (l : List α) (n : Nat)
    (h : n < l.length) :
    ((l.take (n + 1)).map f).sum = ((l.take n).map f).sum + f (l.get ⟨n, h⟩) := by
  have hm : n < (l.map f).length := by simpa using h
  rw [List.map_take, List.map_take, List.sum_take_succ (l.map f) n hm]
  congr 1
  simp [List.getElem_map, List.get_eq_getElem]

theorem sumWeightedUi64_spec (flat : List ZetTypedValue) (rsz mid cid : Nat)
    (vcs : List (Nat × Nat))
    (hv : ∀ (j : Nat) (h : j < vcs.length),
      flat.get? (j * rsz + mid) = some (ZetTypedValue.ui64 (vcs.get ⟨j, h⟩).1))
    (hc : ∀ (j : Nat) (h : j < vcs.length),
      flat.get? (j * rsz + cid) = some (ZetTypedValue.ui64 (vcs.get ⟨j, h⟩).2))
    (hb : (vcs.map (fun p => p.1 * p.2)).sum < U64) :
    ∀ n, n ≤ vcs.length →
      SumWeightedUi64 flat rsz mid cid n =
        some (((vcs.take n).map (fun p => p.1 * p.2)).sum) := by
  intro n
  induction n with
  | zero => intro _; simp [SumWeightedUi64]
  | succ n ih =>
    intro hn
    have hn2 : n < vcs.length := hn
    have hmem : (vcs.get ⟨n, hn2⟩).1 * (vcs.get ⟨n, hn2⟩).2
        ∈ vcs.map (fun p => p.1 * p.2) :=
      List.mem_map_of_mem _ (List.get_mem vcs n hn2)
    have hterm : (vcs.get ⟨n, hn2⟩).1 * (vcs.get ⟨n, hn2⟩).2
        ≤ (vcs.map (fun p => p.1 * p.2)).sum :=
      List.single_le_sum (fun x _ => Nat.zero_le x) _ hmem
    have htsucc : ((vcs.take (n + 1)).map (fun p => p.1 * p.2)).sum =
        ((vcs.take n).map (fun p => p.1 * p.2)).sum +
          (vcs.get ⟨n, hn2⟩).1 * (vcs.get ⟨n, hn2⟩).2 := by
      simpa using sum_map_take_succ (fun p => p.1 * p.2) vcs n hn2
    have htle := sum_map_take_le (fun p => p.1 * p.2) vcs (n + 1)
    simp only [SumWeightedUi64]
    rw [ih (le_of_lt hn2), hv n hn2, hc n hn2]
    simp only [Option.some_bind, ZetTypedValue.asUi64]
    rw [u64mul_of_lt (lt_of_le_of_lt hterm hb), u64add_of_lt (by omega)]
    rw [htsucc]

theorem sumUi64_col_spec {α : Type} (flat : List ZetTypedValue) (rsz col : Nat)
    (vcs : List α) (f : α → Nat)
    (hv : ∀ (j : Nat) (h : j < vcs.length),
      flat.get? (j * rsz + col) = some (ZetTypedValue.ui64 (f (vcs.get ⟨j, h⟩))))
    (hb : (vcs.map f).sum < U64) :
    ∀ n, n ≤ vcs.length →
      SumUi64 flat rsz col n = some (((vcs.take n).map f).sum) := by
  intro n
  induction n with
  | zero => intro _; simp [SumUi64]
  | succ n ih =>
    intro hn
    have hn2 : n < vcs.length := hn
    have hterm : f (vcs.get ⟨n, hn2⟩) ≤ (vcs.map f).sum :=
      List.single_le_sum (fun x _ => Nat.zero_le x) _
        (List.mem_map_of_mem _ (List.get_mem vcs n hn2))
    have htsucc : ((vcs.take (n + 1)).map f).sum =
        ((vcs.take n).map f).sum + f (vcs.get ⟨n, hn2⟩) :=
      sum_map_take_succ f vcs n hn2
    have htle := sum_map_take_le f vcs (n + 1)
    simp only [SumUi64]
    rw [ih (le_of_lt hn2), hv n hn2]
    simp only [Option.some_bind, ZetTypedValue.asUi64]
    rw [u64add_of_lt (by omega)]
    rw [htsucc]

/-- C4: the aggregated row combines a clock-weighted-average column as
`Σ(value_i * clocks_i) / Σ(clocks_i)` and a summed column as `Σ(value_i)`
over the matching records (here for 64-bit integer columns, whose
accumulation is unsigned 64-bit).  Weight-of-one identity, the `GpuTime`
sum and the worked average follow by instantiation. -/
theorem aggregation_weighted_and_sum (flat : List ZetTypedValue)
    (rsz mid cid : Nat) (vcs : List (Nat × Nat))
    (h0 : 0 < vcs.length)
    (hlen : flat.length = vcs.length * rsz)
    (hmid : mid < rsz) (hcid : cid < rsz)
    (hv : ∀ (j : Nat) (h : j < vcs.length),
      flat.get? (j * rsz + mid) = some (ZetTypedValue.ui64 (vcs.get ⟨j, h⟩).1))
    (hc : ∀ (j : Nat) (h : j < vcs.length),
      flat.get? (j * rsz + cid) = some (ZetTypedValue.ui64 (vcs.get ⟨j, h⟩).2))
    (hclk : 0 < (vcs.map Prod.snd).sum)
    (hb1 : (vcs.map (fun p => p.1 * p.2)).sum < U64)
    (hb2 : (vcs.map Prod.fst).sum < U64) :
    ComputeAverageValue mid flat rsz ((vcs.map Prod.snd).sum) cid =
      some (ZetTypedValue.ui64
        ((vcs.map (fun p => p.1 * p.2)).sum / (vcs.map Prod.snd).sum)) ∧
    ComputeTotalValue mid flat rsz =
      some (ZetTypedValue.ui64 ((vcs.map Prod.fst).sum)) := by
  have hrsz : 0 < rsz := Nat.lt_of_le_of_lt (Nat.zero_le mid) hmid
  have hflat0 : ¬ flat.length = 0 := by
    rw [hlen]
    exact Nat.pos_iff_ne_zero.mp (Nat.mul_pos h0 hrsz)
  have hrc : flat.length / rsz = vcs.length := by
    rw [hlen]; exact Nat.mul_div_cancel vcs.length hrsz
  have hget0 : flat.get? mid = some (ZetTypedValue.ui64 (vcs.get ⟨0, h0⟩).1) := by
    have h := hv 0 h0
    simpa using h
  constructor
  · unfold ComputeAverageValue
    rw [if_neg hflat0, if_neg (by omega), if_neg (not_not_intro hmid),
        if_neg (not_not_intro hcid), if_neg (by omega)]
    dsimp only
    rw [hrc, if_neg (not_not_intro hlen.symm), hget0]
    rw [if_neg (by simp [ZetTypedValue.valueType]),
        if_pos (by simp [ZetTypedValue.valueType])]
    rw [sumWeightedUi64_spec flat rsz mid cid vcs hv hc hb1 vcs.length le_rfl]
    simp [List.take_length]
  · unfold ComputeTotalValue
    rw [if_neg hflat0, if_neg (by omega), if_neg (not_not_intro hmid)]
    dsimp only
    rw [hrc, if_neg (not_not_intro hlen.symm), hget0]
    rw [if_neg (by simp [ZetTypedValue.valueType]),
        if_pos (by simp [ZetTypedValue.valueType])]
    rw [sumUi64_col_spec flat rsz mid vcs Prod.fst
          (by intro j h; simpa using hv j h) hb2 vcs.length le_rfl]
    simp [List.take_length]

/-- Witness for C4: over the records `{value 10, clocks 2}` and
`{value 20, clocks 3}` the weighted average is `(10*2+20*3)/5 = 16` and the
sum is `30`; over the single record `{value 7, clocks 5}` both equal the raw
value 7 (weight-of-one identity). -/
theorem aggregation_weighted_and_sum_witness :
    (ComputeAverageValue 0 [ZetTypedValue.ui64 10, ZetTypedValue.ui64 2,
        ZetTypedValue.ui64 20, ZetTypedValue.ui64 3] 2 5 1 =
      some (ZetTypedValue.ui64 16) ∧
     ComputeTotalValue 0 [ZetTypedValue.ui64 10, ZetTypedValue.ui64 2,
        ZetTypedValue.ui64 20, ZetTypedValue.ui64 3] 2 =
      some (ZetTypedValue.ui64 30)) ∧
    (ComputeAverageValue 0 [ZetTypedValue.ui64 7, ZetTypedValue.ui64 5] 2 5 1 =
      some (ZetTypedValue.ui64 7) ∧
     ComputeTotalValue 0 [ZetTypedValue.ui64 7, ZetTypedValue.ui64 5] 2 =
      some (ZetTypedValue.ui64 7)) := by
  constructor
  · have h := aggregation_weighted_and_sum
      [ZetTypedValue.ui64 10, ZetTypedValue.ui64 2,
       ZetTypedValue.ui64 20, ZetTypedValue.ui64 3] 2 0 1 [(10, 2), (20, 3)]
      (by decide) (by decide) (by decide) (by decide)
      (by decide) (by decide) (by decide) (by decide) (by decide)
    exact ⟨h.1.trans (by decide), h.2.trans (by decide)⟩
  · have h := aggregation_weighted_and_sum
      [ZetTypedValue.ui64 7, ZetTypedValue.ui64 5] 2 0 1 [(7, 5)]
      (by decide) (by decide) (by decide) (by decide)
      (by decide) (by decide) (by decide) (by decide) (by decide)
    exact ⟨h.1.trans (by decide), h.2.trans (by decide)⟩

theorem sumGpuClocks_eq_sumUi64 (rl : List ZetTypedValue) (rsz cid : Nat) :
    ∀ n, SumGpuClocks rl rsz cid n = SumUi64 rl rsz cid n := by
  intro n
  induction n with
  | zero => rfl
  | succ n ih => simp only [SumGpuClocks, SumUi64, ih]

/-- C9: division by a zero total-clock count in the clock-weighted average is
a fatal internal error — `ComputeAverageValue` with `total_clocks = 0` always
fails on the `PTI_ASSERT(total_clocks > 0)` guard — and under the
precondition that at least one matching record has a positive clock count,
the `total_clocks` accumulated by `GetAggregatedMetrics` is positive, so
the guarded division-by-zero branch is unreachable. -/
theorem averageValue_zero_clocks_guard (flat : List ZetTypedValue)
    (rsz cid : Nat) (cs : List Nat)
    (hc : ∀ (j : Nat) (h : j < cs.length),
      flat.get? (j * rsz + cid) = some (ZetTypedValue.ui64 (cs.get ⟨j, h⟩)))
    (hb : cs.sum < U64)
    (hpos : ∃ c ∈ cs, 0 < c) :
    (SumGpuClocks flat rsz cid cs.length = some cs.sum ∧ 0 < cs.sum) ∧
    (∀ (mid2 : Nat) (rl : List ZetTypedValue) (rsz2 cid2 : Nat),
      ComputeAverageValue mid2 rl rsz2 0 cid2 = none) := by
  constructor
  · constructor
    · rw [sumGpuClocks_eq_sumUi64]
      have h := sumUi64_col_spec flat rsz cid cs id
        (by intro j hj; simpa using hc j hj) (by simpa using hb)
        cs.length le_rfl
      simpa using h
    · obtain ⟨c, hcm, hcp⟩ := hpos
      have hle : c ≤ cs.sum := List.single_le_sum (fun x _ => Nat.zero_le x) c hcm
      omega
  · intro mid2 rl rsz2 cid2
    unfold ComputeAverageValue
    by_cases h1 : rl.length = 0
    · rw [if_pos h1]
    · rw [if_neg h1]
      by_cases h2 : rsz2 = 0
      · rw [if_pos h2]
      · rw [if_neg h2]
        by_cases h3 : ¬ mid2 < rsz2
        · rw [if_pos h3]
        · rw [if_neg h3]
          by_cases h4 : ¬ cid2 < rsz2
          · rw [if_pos h4]
          · rw [if_neg h4, if_pos rfl]

/-- Witness for C9: clocks `[4, 6]` in single-column reports accumulate to a
positive total of 10, and the zero-total-clocks average is a fatal `none`. -/
theorem averageValue_zero_clocks_guard_witness :
    (SumGpuClocks [ZetTypedValue.ui64 4, ZetTypedValue.ui64 6] 1 0
        ([4, 6] : List Nat).length = some ([4, 6] : List Nat).sum ∧
      0 < ([4, 6] : List Nat).sum) ∧
    (∀ (mid2 : Nat) (rl : List ZetTypedValue) (rsz2 cid2 : Nat),
      ComputeAverageValue mid2 rl rsz2 0 cid2 = none) :=
  averageValue_zero_clocks_guard
    [ZetTypedValue.ui64 4, ZetTypedValue.ui64 6] 1 0 [4, 6]
    (by decide) (by decide) (by decide)

theorem chunkFilter_nomatch (chunk : List ZetTypedValue)
    (rsz time_id start end_ : Nat)
    (hj : ∀ (j : Nat), j < chunk.length / rsz →
      ∃ t, chunk.get? (j * rsz + time_id) = some (ZetTypedValue.ui64 t) ∧
        (t < start ∨ end_ < t)) :
    ∀ n, n ≤ chunk.length / rsz →
      ChunkFilter chunk rsz time_id start end_ n = some [] := by
  intro n
  induction n with
  | zero => intro _; rfl
  | succ n ih =>
    intro hn
    obtain ⟨t, hget, hout⟩ := hj n (by omega)
    simp only [ChunkFilter]
    rw [ih (by omega), hget]
    simp only [Option.some_bind, ZetTypedValue.asUi64]
    rw [if_neg (by omega)]

theorem getMetricIntervalGo_nomatch (start end_ rsz time_id : Nat)
    (_hrsz : 0 < rsz) :
    ∀ chunks : List (List ZetTypedValue),
      (∀ ch ∈ chunks,
        (ch.length / rsz) * rsz = ch.length ∧
        ∀ (j : Nat), j < ch.length / rsz →
          ∃ t, ch.get? (j * rsz + time_id) = some (ZetTypedValue.ui64 t) ∧
            (t < start ∨ end_ < t)) →
      GetMetricIntervalGo start end_ rsz time_id chunks = some [] := by
  intro chunks
  induction chunks with
  | nil => intro _; rfl
  | cons ch rest ih =>
    intro hch
    obtain ⟨hwf, hj⟩ := hch ch (List.mem_cons_self _ _)
    have hrest := fun c hc => hch c (List.mem_cons_of_mem _ hc)
    simp only [GetMetricIntervalGo]
    by_cases hlen : ch.length = 0
    · rw [if_pos hlen]
    · rw [if_neg hlen]
      rw [if_neg (not_not_intro hwf)]
      have hrc : 0 < ch.length / rsz := by
        rcases Nat.eq_zero_or_pos (ch.length / rsz) with h0 | h0
        · rw [h0, Nat.zero_mul] at hwf; omega
        · exact h0
      obtain ⟨t1, hg1, ho1⟩ := hj 0 hrc
      have hg1b : ch.get? time_id = some (ZetTypedValue.ui64 t1) := by
        simpa using hg1
      rw [hg1b]
      simp only [Option.some_bind, ZetTypedValue.asUi64]
      by_cases hskip1 : end_ < t1
      · rw [if_pos hskip1]; exact ih hrest
      · rw [if_neg hskip1]
        obtain ⟨t2, hg2, ho2⟩ := hj (ch.length / rsz - 1) (by omega)
        rw [hg2]
        simp only [Option.some_bind, ZetTypedValue.asUi64]
        by_cases hskip2 : t2 < start
        · rw [if_pos hskip2]; exact ih hrest
        · rw [if_neg hskip2]
          rw [chunkFilter_nomatch ch rsz time_id start end_ hj
                (ch.length / rsz) le_rfl]
          rw [ih hrest]
          rfl

/-- C10: when no counter report's time field falls within the requested
`[start, end]` window, `GetMetricInterval` selects no reports and
`GetAggregatedMetrics` returns an empty result (`some []`): no combination
rule runs and the zero-total-clocks assertion is never reached, so a
zero-match window is handled gracefully rather than fatally. -/
theorem aggregatedMetrics_empty_window (chunks : List (List ZetTypedValue))
    (start end_ rsz time_id cid : Nat)
    (metric_list : List String) (type_list : List ZetMetricType)
    (hse : start < end_) (hrsz : 0 < rsz) (_htid : time_id < rsz)
    (hml : metric_list.length = rsz) (htl : type_list.length = rsz)
    (hch : ∀ ch ∈ chunks,
      (ch.length / rsz) * rsz = ch.length ∧
      ∀ (j : Nat), j < ch.length / rsz →
        ∃ t, ch.get? (j * rsz + time_id) = some (ZetTypedValue.ui64 t) ∧
          (t < start ∨ end_ < t)) :
    GetMetricInterval chunks start end_ rsz time_id = some [] ∧
    GetAggregatedMetrics chunks start end_ rsz time_id cid metric_list
      type_list = some [] := by
  have hgo := getMetricIntervalGo_nomatch start end_ rsz time_id hrsz chunks hch
  have hint : GetMetricInterval chunks start end_ rsz time_id = some [] := by
    unfold GetMetricInterval
    rw [if_neg (not_not_intro hse), if_neg (by omega)]
    exact hgo
  refine ⟨hint, ?_⟩
  unfold GetAggregatedMetrics
  rw [if_neg (not_not_intro hse), if_neg (by omega),
      if_neg (not_not_intro hml), if_neg (not_not_intro htl), hint]
  simp

/-- Witness for C10: a single chunk whose one report has time 50 matches
nothing in the window `[100, 200]`, and the aggregation returns `some []`. -/
theorem aggregatedMetrics_empty_window_witness :
    GetMetricInterval [[ZetTypedValue.ui64 50, ZetTypedValue.ui64 7]]
      100 200 2 0 = some [] ∧
    GetAggregatedMetrics [[ZetTypedValue.ui64 50, ZetTypedValue.ui64 7]]
      100 200 2 0 1 ["QueryBeginTime", "GpuCoreClocks"]
      [ZetMetricType.timestamp, ZetMetricType.event] = some [] := by
  refine aggregatedMetrics_empty_window
    [[ZetTypedValue.ui64 50, ZetTypedValue.ui64 7]] 100 200 2 0 1
    ["QueryBeginTime", "GpuCoreClocks"]
    [ZetMetricType.timestamp, ZetMetricType.event]
    (by decide) (by decide) (by decide) (by decide) (by decide) ?_
  intro ch hchm
  rw [List.mem_singleton] at hchm
  subst hchm
  constructor
  · decide
  · intro j hj
    have hj0 : j = 0 := by
      simp only [List.length_cons, List.length_nil] at hj
      omega
    subst hj0
    exact ⟨50, by decide, by decide⟩

theorem processCall_inv (env : ZeEnv) (dm : List (Nat × List Nat))
    (s : CollectorState) (call : ZeKernelCall) (s2 : CollectorState)
    (h : ProcessCall env dm s call = some s2) :
    ∃ command t interval,
      s.commands call.command = some command ∧
      env.eventStatus command.event = ZeResult.success ∧
      ProcessCallTiming call.submit_time call.device_submit_time
        (env.kernelTimestamp command.event).1
        (env.kernelTimestamp command.event).2
        command.timer_frequency = some t ∧
      ¬ command.props.name = "" ∧
      AddKernelInterval s.verbose dm env command = some interval ∧
      s2 = { s with
        kernel_info_map := AddKernelInfo s.verbose s.kernel_info_map
          (u64sub t.host_end t.host_start) command.props,
        kernel_interval_list := s.kernel_interval_list ++ [interval] } := by
  unfold ProcessCall at h
  cases hc : s.commands call.command with
  | none => rw [hc] at h; exact absurd h (by simp)
  | some command =>
    rw [hc] at h
    simp only [Option.some_bind] at h
    by_cases hs : ¬ env.eventStatus command.event = ZeResult.success
    · rw [if_pos hs] at h; exact absurd h (by simp)
    · rw [if_neg hs] at h
      cases ht : ProcessCallTiming call.submit_time call.device_submit_time
          (env.kernelTimestamp command.event).1
          (env.kernelTimestamp command.event).2
          command.timer_frequency with
      | none => rw [ht] at h; exact absurd h (by simp)
      | some t =>
        rw [ht] at h
        simp only [Option.some_bind] at h
        by_cases hn : command.props.name = ""
        · rw [if_pos hn] at h; exact absurd h (by simp)
        · rw [if_neg hn] at h
          cases hi : AddKernelInterval s.verbose dm env command with
          | none => rw [hi] at h; exact absurd h (by simp)
          | some interval =>
            rw [hi] at h
            simp only [Option.some_bind, Option.some.injEq] at h
            exact ⟨command, t, interval, by first | exact hc | rfl,
              not_not.mp hs, ht, hn, by first | exact hi | rfl, h.symm⟩

theorem processCall_eq_some (env : ZeEnv) (dm : List (Nat × List Nat))
    (s : CollectorState) (call : ZeKernelCall)
    (command : ZeKernelCommand) (t : ZeTimingResult) (interval : ZeKernelInterval)
    (hc : s.commands call.command = some command)
    (hs : env.eventStatus command.event = ZeResult.success)
    (ht : ProcessCallTiming call.submit_time call.device_submit_time
        (env.kernelTimestamp command.event).1
        (env.kernelTimestamp command.event).2
        command.timer_frequency = some t)
    (hn : ¬ command.props.name = "")
    (hi : AddKernelInterval s.verbose dm env command = some interval) :
    ProcessCall env dm s call = some { s with
      kernel_info_map := AddKernelInfo s.verbose s.kernel_info_map
        (u64sub t.host_end t.host_start) command.props,
      kernel_interval_list := s.kernel_interval_list ++ [interval] } := by
  unfold ProcessCall
  rw [hc]
  simp only [Option.some_bind]
  rw [if_neg (not_not_intro hs), ht]
  simp only [Option.some_bind]
  rw [if_neg hn, hi]
  simp only [Option.some_bind]

theorem processCall_commands_eq (env : ZeEnv) (dm : List (Nat × List Nat))
    (s : CollectorState) (call : ZeKernelCall) (s2 : CollectorState)
    (h : ProcessCall env dm s call = some s2) :
    s2.commands = s.commands ∧ s2.kernel_call_list = s.kernel_call_list ∧
    s2.command_list_map = s.command_list_map ∧ s2.verbose = s.verbose := by
  obtain ⟨command, t, interval, _, _, _, _, _, hs2⟩ :=
    processCall_inv env dm s call s2 h
  subst hs2
  exact ⟨rfl, rfl, rfl, rfl⟩

theorem callStatus_some_iff (env : ZeEnv) (s : CollectorState)
    (c : ZeKernelCall) (r : ZeResult) :
    CallStatus env s c = some r ↔
      ∃ cmd, s.commands c.command = some cmd ∧ env.eventStatus cmd.event = r := by
  unfold CallStatus
  cases s.commands c.command <;> simp

theorem sweepGo_partition (env : ZeEnv) (dm : List (Nat × List Nat)) :
    ∀ (calls : List ZeKernelCall) (s : CollectorState),
      (∀ c ∈ calls, CallStatus env s c = some ZeResult.notReady ∨
        CallStatus env s c = some ZeResult.success) →
      SweepGo env dm s calls =
        (FinalizeList env dm s
            (calls.filter (fun c =>
              decide (CallStatus env s c = some ZeResult.success)))).map
          (fun t => (t,
            calls.filter (fun c =>
              decide (CallStatus env s c = some ZeResult.notReady)))) := by
  intro calls
  induction calls with
  | nil => intro s _; rfl
  | cons c rest ih =>
    intro s hok
    have hoktail : ∀ x ∈ rest, CallStatus env s x = some ZeResult.notReady ∨
        CallStatus env s x = some ZeResult.success :=
      fun x hx => hok x (List.mem_cons_of_mem _ hx)
    rcases hok c (List.mem_cons_self _ _) with hnr | hsc
    · obtain ⟨cmd, hcm, hst⟩ := (callStatus_some_iff env s c _).mp hnr
      have hfS : (c :: rest).filter (fun x =>
          decide (CallStatus env s x = some ZeResult.success)) =
          rest.filter (fun x =>
            decide (CallStatus env s x = some ZeResult.success)) :=
        List.filter_cons_of_neg (by simp [hnr])
      have hfN : (c :: rest).filter (fun x =>
          decide (CallStatus env s x = some ZeResult.notReady)) =
          c :: rest.filter (fun x =>
            decide (CallStatus env s x = some ZeResult.notReady)) :=
        List.filter_cons_of_pos (by simp [hnr])
      simp only [SweepGo]
      rw [hcm]
      simp only [Option.some_bind]
      rw [if_pos hst, ih s hoktail, hfS, hfN]
      cases FinalizeList env dm s
          (rest.filter (fun x =>
            decide (CallStatus env s x = some ZeResult.success))) <;> rfl
    · obtain ⟨cmd, hcm, hst⟩ := (callStatus_some_iff env s c _).mp hsc
      have hfS : (c :: rest).filter (fun x =>
          decide (CallStatus env s x = some ZeResult.success)) =
          c :: rest.filter (fun x =>
            decide (CallStatus env s x = some ZeResult.success)) :=
        List.filter_cons_of_pos (by simp [hsc])
      have hfN : (c :: rest).filter (fun x =>
          decide (CallStatus env s x = some ZeResult.notReady)) =
          rest.filter (fun x =>
            decide (CallStatus env s x = some ZeResult.notReady)) :=
        List.filter_cons_of_neg (by simp [hsc])
      simp only [SweepGo]
      rw [hcm]
      simp only [Option.some_bind]
      rw [if_neg (by rw [hst]; intro hh; exact ZeResult.noConfusion hh),
          if_pos hst, hfS, hfN]
      simp only [FinalizeList]
      cases hpc : ProcessCall env dm s c with
      | none => rfl
      | some s2 =>
        simp only [Option.some_bind]
        have hpres := processCall_commands_eq env dm s c s2 hpc
        have hcseq : ∀ x, CallStatus env s2 x = CallStatus env s x := by
          intro x; unfold CallStatus; rw [hpres.1]
        rw [ih s2 (by intro x hx; rw [hcseq]; exact hoktail x hx)]
        have hfS2 : rest.filter (fun x =>
            decide (CallStatus env s2 x = some ZeResult.success)) =
            rest.filter (fun x =>
              decide (CallStatus env s x = some ZeResult.success)) :=
          List.filter_congr (by intro x _; rw [hcseq x])
        have hfN2 : rest.filter (fun x =>
            decide (CallStatus env s2 x = some ZeResult.notReady)) =
            rest.filter (fun x =>
              decide (CallStatus env s x = some ZeResult.notReady)) :=
          List.filter_congr (by intro x _; rw [hcseq x])
        rw [hfS2, hfN2]

theorem sweepGo_fatal (env : ZeEnv) (dm : List (Nat × List Nat)) :
    ∀ (calls : List ZeKernelCall) (s : CollectorState) (c : ZeKernelCall),
      c ∈ calls →
      ¬ CallStatus env s c = some ZeResult.notReady →
      ¬ CallStatus env s c = some ZeResult.success →
      SweepGo env dm s calls = none := by
  intro calls
  induction calls with
  | nil => intro s c hc; exact absurd hc (List.not_mem_nil c)
  | cons d rest ih =>
    intro s c hc hnr hns
    simp only [SweepGo]
    rcases List.mem_cons.mp hc with rfl | hmem
    · cases hcm : s.commands c.command with
      | none => rfl
      | some cmd =>
        have hst : CallStatus env s c = some (env.eventStatus cmd.event) := by
          unfold CallStatus; rw [hcm]; rfl
        simp only [Option.some_bind]
        rw [if_neg (by intro hh; exact hnr (by rw [hst, hh])),
            if_neg (by intro hh; exact hns (by rw [hst, hh]))]
    · cases hcm : s.commands d.command with
      | none => rfl
      | some cmd =>
        simp only [Option.some_bind]
        by_cases h1 : env.eventStatus cmd.event = ZeResult.notReady
        · rw [if_pos h1, ih s c hmem hnr hns]; rfl
        · rw [if_neg h1]
          by_cases h2 : env.eventStatus cmd.event = ZeResult.success
          · rw [if_pos h2]
            cases hpc : ProcessCall env dm s d with
            | none => rfl
            | some s2 =>
              simp only [Option.some_bind]
              have hpres := processCall_commands_eq env dm s d s2 hpc
              have hcs : CallStatus env s2 c = CallStatus env s c := by
                unfold CallStatus; rw [hpres.1]
              exact ih s2 c hmem (by rw [hcs]; exact hnr) (by rw [hcs]; exact hns)
          · rw [if_neg h2]

/-- C5: a completion sweep leaves every not-ready call in the pending list,
finalizes and removes every signaled call (in order), and any other
completion status — including a freed command — is a fatal internal error;
each call is settled by a single non-blocking status query. -/
theorem processCalls_sweep_partition (env : ZeEnv)
    (dm : List (Nat × List Nat)) (s : CollectorState)
    (hok : ∀ c ∈ s.kernel_call_list,
      CallStatus env s c = some ZeResult.notReady ∨
      CallStatus env s c = some ZeResult.success) :
    ProcessCalls env dm s =
      (FinalizeList env dm s
          (s.kernel_call_list.filter (fun c =>
            decide (CallStatus env s c = some ZeResult.success)))).map
        (fun t => { t with kernel_call_list :=
            s.kernel_call_list.filter (fun c =>
              decide (CallStatus env s c = some ZeResult.notReady)) }) ∧
    (∀ (s2 : CollectorState) (c : ZeKernelCall), c ∈ s2.kernel_call_list →
      ¬ CallStatus env s2 c = some ZeResult.notReady →
      ¬ CallStatus env s2 c = some ZeResult.success →
      ProcessCalls env dm s2 = none) := by
  constructor
  · unfold ProcessCalls
    rw [sweepGo_partition env dm s.kernel_call_list s hok]
    cases FinalizeList env dm s
        (s.kernel_call_list.filter (fun c =>
          decide (CallStatus env s c = some ZeResult.success))) <;> rfl
  · intro s2 c hmem h1 h2
    unfold ProcessCalls
    rw [sweepGo_fatal env dm s2.kernel_call_list s2 c hmem h1 h2]
    rfl

/-- Witness for C5 on a concrete two-call state: the not-ready call stays
pending, the signaled call is finalized, and the sweep succeeds. -/
theorem processCalls_sweep_partition_witness :
    (ProcessCalls exEnvSel exDm exState2).isSome = true ∧
    ProcessCalls exEnvSel exDm exState2 =
      (FinalizeList exEnvSel exDm exState2
          (exState2.kernel_call_list.filter (fun c =>
            decide (CallStatus exEnvSel exState2 c = some ZeResult.success)))).map
        (fun t => { t with kernel_call_list :=
            exState2.kernel_call_list.filter (fun c =>
              decide (CallStatus exEnvSel exState2 c =
                some ZeResult.notReady)) }) :=
  ⟨by decide,
   (processCalls_sweep_partition exEnvSel exDm exState2 (by decide)).1⟩

theorem sweepGo_preserves (env : ZeEnv) (dm : List (Nat × List Nat)) :
    ∀ (calls : List ZeKernelCall) (s : CollectorState)
      (p : CollectorState × List ZeKernelCall),
      SweepGo env dm s calls = some p →
      p.1.commands = s.commands ∧ p.1.command_list_map = s.command_list_map := by
  intro calls
  induction calls with
  | nil =>
    intro s p h
    simp only [SweepGo, Option.some.injEq] at h
    rw [← h]
    exact ⟨rfl, rfl⟩
  | cons c rest ih =>
    intro s p h
    simp only [SweepGo] at h
    cases hcm : s.commands c.command with
    | none => rw [hcm] at h; exact absurd h (by simp)
    | some cmd =>
      rw [hcm] at h
      simp only [Option.some_bind] at h
      by_cases h1 : env.eventStatus cmd.event = ZeResult.notReady
      · rw [if_pos h1] at h
        cases hgo : SweepGo env dm s rest with
        | none => rw [hgo] at h; exact absurd h (by simp)
        | some q =>
          rw [hgo] at h
          simp only [Option.map_some', Option.some.injEq] at h
          have := ih s q hgo
          rw [← h]
          exact this
      · rw [if_neg h1] at h
        by_cases h2 : env.eventStatus cmd.event = ZeResult.success
        · rw [if_pos h2] at h
          cases hpc : ProcessCall env dm s c with
          | none => rw [hpc] at h; exact absurd h (by simp)
          | some s2 =>
            rw [hpc] at h
            simp only [Option.some_bind] at h
            have hp := processCall_commands_eq env dm s c s2 hpc
            have := ih s2 p h
            rw [this.1, this.2, hp.1, hp.2.2.1]
            exact ⟨rfl, rfl⟩
        · rw [if_neg h2] at h; exact absurd h (by simp)

theorem processCalls_preserves (env : ZeEnv) (dm : List (Nat × List Nat))
    (s s1 : CollectorState) (h : ProcessCalls env dm s = some s1) :
    s1.commands = s.commands ∧ s1.command_list_map = s.command_list_map ∧
    s1.kernel_call_list =
      (SweepGo env dm s s.kernel_call_list).elim [] (fun p => p.2) := by
  unfold ProcessCalls at h
  cases hgo : SweepGo env dm s s.kernel_call_list with
  | none => rw [hgo] at h; exact absurd h (by simp)
  | some p =>
    rw [hgo] at h
    simp only [Option.map_some', Option.some.injEq] at h
    have hp := sweepGo_preserves env dm s.kernel_call_list s p hgo
    rw [← h]
    exact ⟨hp.1, hp.2, rfl⟩

theorem removeGo_none_mono (calls : List ZeKernelCall) :
    ∀ (l : List Nat) (cmds cmds2 : Nat → Option ZeKernelCommand),
      RemoveKernelCommandsGo calls cmds l = some cmds2 →
      ∀ i, cmds i = none → cmds2 i = none := by
  intro l
  induction l with
  | nil =>
    intro cmds cmds2 h i hi
    simp only [RemoveKernelCommandsGo, Option.some.injEq] at h
    rw [← h]; exact hi
  | cons cid rest ih =>
    intro cmds cmds2 h i hi
    simp only [RemoveKernelCommandsGo] at h
    by_cases hall : calls.all (fun c => c.command != cid) = true
    · rw [if_pos hall] at h
      refine ih _ _ h i ?_
      by_cases hic : i = cid
      · rw [if_pos hic]
      · rw [if_neg hic]; exact hi
    · rw [if_neg hall] at h; exact absurd h (by simp)

theorem removeGo_spec (calls : List ZeKernelCall) :
    ∀ (l : List Nat) (cmds cmds2 : Nat → Option ZeKernelCommand),
      RemoveKernelCommandsGo calls cmds l = some cmds2 →
      ∀ cid ∈ l, cmds2 cid = none ∧ ∀ c ∈ calls, ¬ c.command = cid := by
  intro l
  induction l with
  | nil => intro _ _ _ cid hcid; exact absurd hcid (List.not_mem_nil cid)
  | cons d rest ih =>
    intro cmds cmds2 h cid hcid
    simp only [RemoveKernelCommandsGo] at h
    by_cases hall : calls.all (fun c => c.command != d) = true
    · rw [if_pos hall] at h
      have hnref : ∀ c ∈ calls, ¬ c.command = d := by
        intro c hc
        have hb := List.all_eq_true.mp hall c hc
        simpa using hb
      rcases List.mem_cons.mp hcid with rfl | hmem
      · exact ⟨removeGo_none_mono calls rest _ cmds2 h cid (by simp), hnref⟩
      · exact ih _ _ h cid hmem
    · rw [if_neg hall] at h; exact absurd h (by simp)

theorem removeKernelCommands_inv (s : CollectorState) (h : Nat)
    (s2 : CollectorState) (hrm : RemoveKernelCommands s h = some s2) :
    ∃ info cmds2,
      s.command_list_map h = some info ∧
      RemoveKernelCommandsGo s.kernel_call_list s.commands
        info.kernel_command_list = some cmds2 ∧
      s2 = { s with
        commands := cmds2,
        command_list_map := fun l =>
          if l = h then some { info with kernel_command_list := [] }
          else s.command_list_map l } := by
  unfold RemoveKernelCommands at hrm
  cases hi : s.command_list_map h with
  | none => rw [hi] at hrm; exact absurd hrm (by simp)
  | some info =>
    rw [hi] at hrm
    simp only [Option.some_bind] at hrm
    cases hgo : RemoveKernelCommandsGo s.kernel_call_list s.commands
        info.kernel_command_list with
    | none => rw [hgo] at hrm; exact absurd hrm (by simp)
    | some cmds2 =>
      rw [hgo] at hrm
      simp only [Option.some_bind, Option.some.injEq] at hrm
      exact ⟨info, cmds2, by first | exact hi | rfl,
        by first | exact hgo | rfl, hrm.symm⟩

/-- C6: resetting or destroying a command list first runs a full completion
sweep and only then frees the list's owned commands; on success the list's
command sequence is empty (reset) or the list entry is gone (destroy), every
owned command is freed from the command store, and no pending call
references any of the freed commands (enforced defensively by the
`PTI_ASSERT(call->command != command)` check during removal). -/
theorem commandList_reset_destroy_drains (env : ZeEnv)
    (dm : List (Nat × List Nat)) (s : CollectorState) (h : Nat)
    (info : ZeCommandListInfo)
    (hinfo : s.command_list_map h = some info) :
    (∀ s2, OnExitCommandListReset env dm s h = some s2 →
      s2.command_list_map h = some { info with kernel_command_list := [] } ∧
      (∀ cid ∈ info.kernel_command_list, s2.commands cid = none) ∧
      (∀ c ∈ s2.kernel_call_list, ∀ cid ∈ info.kernel_command_list,
        ¬ c.command = cid)) ∧
    (∀ s2, OnExitCommandListDestroy env dm s h = some s2 →
      s2.command_list_map h = none ∧
      (∀ cid ∈ info.kernel_command_list, s2.commands cid = none) ∧
      (∀ c ∈ s2.kernel_call_list, ∀ cid ∈ info.kernel_command_list,
        ¬ c.command = cid)) := by
  constructor
  · intro s2 h2
    unfold OnExitCommandListReset at h2
    cases hpc : ProcessCalls env dm s with
    | none => rw [hpc] at h2; exact absurd h2 (by simp)
    | some s1 =>
      rw [hpc] at h2
      simp only [Option.some_bind] at h2
      unfold ResetCommandList at h2
      obtain ⟨hpres1, hpres2, _⟩ := processCalls_preserves env dm s s1 hpc
      obtain ⟨info2, cmds2, hi2, hgo, hs2⟩ := removeKernelCommands_inv s1 h s2 h2
      have hieq : info2 = info := by
        rw [hpres2, hinfo] at hi2
        exact (Option.some.injEq _ _ ▸ hi2).symm
      subst hieq
      have hspec := removeGo_spec s1.kernel_call_list
        info2.kernel_command_list s1.commands cmds2 hgo
      refine ⟨?_, ?_, ?_⟩
      · rw [hs2]; simp
      · intro cid hcid
        rw [hs2]
        exact (hspec cid hcid).1
      · intro c hp cid hcid
        rw [hs2] at hp
        exact (hspec cid hcid).2 c hp
  · intro s2 h2
    unfold OnExitCommandListDestroy at h2
    cases hpc : ProcessCalls env dm s with
    | none => rw [hpc] at h2; exact absurd h2 (by simp)
    | some s1 =>
      rw [hpc] at h2
      simp only [Option.some_bind] at h2
      unfold RemoveCommandList at h2
      cases hrm : RemoveKernelCommands s1 h with
      | none => rw [hrm] at h2; exact absurd h2 (by simp)
      | some s3 =>
        rw [hrm] at h2
        simp only [Option.some_bind, Option.some.injEq] at h2
        obtain ⟨hpres1, hpres2, _⟩ := processCalls_preserves env dm s s1 hpc
        obtain ⟨info2, cmds2, hi2, hgo, hs3⟩ := removeKernelCommands_inv s1 h s3 hrm
        have hieq : info2 = info := by
          rw [hpres2, hinfo] at hi2
          exact (Option.some.injEq _ _ ▸ hi2).symm
        subst hieq
        have hspec := removeGo_spec s1.kernel_call_list
          info2.kernel_command_list s1.commands cmds2 hgo
        refine ⟨?_, ?_, ?_⟩
        · rw [← h2]; simp
        · intro cid hcid
          rw [← h2]
          simp only []
          rw [hs3]
          exact (hspec cid hcid).1
        · intro c hp cid hcid
          rw [← h2] at hp
          simp only [] at hp
          rw [hs3] at hp
          exact (hspec cid hcid).2 c hp

/-- Witness for C6: the example single-call state can be reset and destroyed
after its pending call completes, and both operations succeed. -/
theorem commandList_reset_destroy_drains_witness :
    ((OnExitCommandListReset exEnvAll exDm exState1 0).isSome = true ∧
     (OnExitCommandListDestroy exEnvAll exDm exState1 0).isSome = true) ∧
    ((∀ s2, OnExitCommandListReset exEnvAll exDm exState1 0 = some s2 →
      s2.command_list_map 0 = some { exInfo with kernel_command_list := [] } ∧
      (∀ cid ∈ exInfo.kernel_command_list, s2.commands cid = none) ∧
      (∀ c ∈ s2.kernel_call_list, ∀ cid ∈ exInfo.kernel_command_list,
        ¬ c.command = cid)) ∧
     (∀ s2, OnExitCommandListDestroy exEnvAll exDm exState1 0 = some s2 →
      s2.command_list_map 0 = none ∧
      (∀ cid ∈ exInfo.kernel_command_list, s2.commands cid = none) ∧
      (∀ c ∈ s2.kernel_call_list, ∀ cid ∈ exInfo.kernel_command_list,
        ¬ c.command = cid))) :=
  ⟨⟨by decide, by decide⟩,
   commandList_reset_destroy_drains exEnvAll exDm exState1 0 exInfo rfl⟩

/-- C7 counterexample: finalizing the example call (submit anchor host 1000 /
device 500, kernel ticks 600..900 at 1 GHz) appends one interval whose slice
covers `[600, 900)` in the device clock domain, while the host-anchored
window computed by the anchoring step is `[1100, 1400)`; the appended slice
does not cover the host-anchored window, contrary to the claim. -/
theorem addKernelInterval_not_host_anchored :
    (ProcessCall exEnvAll exDm exState1 exCall0).map
        (fun s2 => s2.kernel_interval_list.map
          (fun iv => iv.device_interval_list)) =
      some [[⟨600, 900, 0⟩]] ∧
    ProcessCallTiming 1000 500 600 900 1000000000 = some ⟨300, 1100, 1400⟩ ∧
    ¬ ((600 : Nat) = 1100 ∧ (900 : Nat) = 1400) :=
  ⟨by decide, by decide, by decide⟩

/-- C7 (amended): finalizing a completed call appends exactly one
KernelInterval record; each of its per-sub-device slices covers the
device-clock window `[start_ns, end_ns)` with
`start_ns = kernel_start_ticks * 1e9 / freq` and
`end_ns = start_ns + duration_ns` — not the host-anchored window of the
anchoring step — and the record has one slice per participating sub-device
when the command's device has a non-empty sub-device list, and exactly one
slice otherwise. -/
theorem addKernelInterval_device_window (env : ZeEnv)
    (dm : List (Nat × List Nat)) (s : CollectorState) (call : ZeKernelCall)
    (command : ZeKernelCommand) (kstart kend : Nat)
    (hcmd : s.commands call.command = some command)
    (hts : env.kernelTimestamp command.event = (kstart, kend)) :
    (∀ iv, AddKernelInterval s.verbose dm env command = some iv →
      (∀ sl ∈ iv.device_interval_list,
        sl.start = u64mul kstart NSEC_IN_SEC / command.timer_frequency ∧
        sl.end_ = u64add sl.start
          (ComputeDuration kstart kend command.timer_frequency)) ∧
      iv.device_interval_list.length =
        (match dm.lookup command.device with
          | some subs => if subs = [] then 1 else subs.length
          | none => 1)) ∧
    (∀ s2, ProcessCall env dm s call = some s2 →
      ∃ iv, AddKernelInterval s.verbose dm env command = some iv ∧
        s2.kernel_interval_list = s.kernel_interval_list ++ [iv]) := by
  constructor
  · intro iv hiv
    unfold AddKernelInterval at hiv
    rw [hts] at hiv
    dsimp only at hiv
    by_cases h1 : command.props.name = ""
    · rw [if_pos h1] at hiv; exact absurd hiv (by simp)
    rw [if_neg h1] at hiv
    by_cases h2 : ¬ env.eventStatus command.event = ZeResult.success
    · rw [if_pos h2] at hiv; exact absurd hiv (by simp)
    rw [if_neg h2] at hiv
    by_cases h3 : command.timer_frequency = 0
    · rw [if_pos h3] at hiv; exact absurd hiv (by simp)
    rw [if_neg h3] at hiv
    by_cases h4 : ¬ u64mul kstart NSEC_IN_SEC / command.timer_frequency <
        u64add (u64mul kstart NSEC_IN_SEC / command.timer_frequency)
          (ComputeDuration kstart kend command.timer_frequency)
    · rw [if_pos h4] at hiv; exact absurd hiv (by simp)
    rw [if_neg h4] at hiv
    cases hdm : dm.lookup command.device with
    | some subs =>
      rw [hdm] at hiv
      dsimp only at hiv
      by_cases h5 : subs = []
      · rw [if_pos h5] at hiv
        simp only [Option.some.injEq] at hiv
        subst hiv
        refine ⟨?_, by simp [h5]⟩
        intro sl hsl
        simp only [List.mem_singleton] at hsl
        subst hsl
        exact ⟨rfl, rfl⟩
      · rw [if_neg h5] at hiv
        by_cases h6 : U32 - 1 < subs.length
        · rw [if_pos h6] at hiv; exact absurd hiv (by simp)
        · rw [if_neg h6] at hiv
          simp only [Option.some.injEq] at hiv
          subst hiv
          constructor
          · intro sl hsl
            simp only [List.mem_map, List.mem_range] at hsl
            obtain ⟨i, _, hsl⟩ := hsl
            subst hsl
            exact ⟨rfl, rfl⟩
          · simp [h5]
    | none =>
      rw [hdm] at hiv
      dsimp only at hiv
      cases hfs : FindSubDevice command.device dm with
      | none => rw [hfs] at hiv; exact absurd hiv (by simp)
      | some pi =>
        rw [hfs] at hiv
        dsimp only at hiv
        by_cases h6 : U32 - 1 ≤ pi.2
        · rw [if_pos h6] at hiv; exact absurd hiv (by simp)
        · rw [if_neg h6] at hiv
          simp only [Option.some.injEq] at hiv
          subst hiv
          refine ⟨?_, by simp⟩
          intro sl hsl
          simp only [List.mem_singleton] at hsl
          subst hsl
          exact ⟨rfl, rfl⟩
  · intro s2 h2
    obtain ⟨command2, t, interval, hc2, _, _, _, hi2, hs2⟩ :=
      processCall_inv env dm s call s2 h2
    have hceq : command2 = command := by
      rw [hcmd] at hc2
      exact (Option.some.inj hc2).symm
    subst hceq
    exact ⟨interval, hi2, by rw [hs2]⟩

/-- Witness for C7's amended theorem on the example state: the interval
exists and the theorem characterizes its slices. -/
theorem addKernelInterval_device_window_witness :
    (AddKernelInterval exState1.verbose exDm exEnvAll exCmd0).isSome = true ∧
    ((∀ iv, AddKernelInterval exState1.verbose exDm exEnvAll exCmd0 = some iv →
      (∀ sl ∈ iv.device_interval_list,
        sl.start = u64mul 600 NSEC_IN_SEC / exCmd0.timer_frequency ∧
        sl.end_ = u64add sl.start
          (ComputeDuration 600 900 exCmd0.timer_frequency)) ∧
      iv.device_interval_list.length =
        (match exDm.lookup exCmd0.device with
          | some subs => if subs = [] then 1 else subs.length
          | none => 1)) ∧
    (∀ s2, ProcessCall exEnvAll exDm exState1 exCall0 = some s2 →
      ∃ iv, AddKernelInterval exState1.verbose exDm exEnvAll exCmd0 = some iv ∧
        s2.kernel_interval_list = exState1.kernel_interval_list ++ [iv])) :=
  ⟨by decide,
   addKernelInterval_device_window exEnvAll exDm exState1 exCall0 exCmd0
     600 900 rfl rfl⟩

theorem processEventGo_nomatch (env : ZeEnv) (dm : List (Nat × List Nat))
    (event : Nat) :
    ∀ (l : List ZeKernelCall) (s : CollectorState),
      (∀ x ∈ l, ∃ cmd, s.commands x.command = some cmd ∧ ¬ cmd.event = event) →
      ProcessEventGo env dm event s l = some (s, l) := by
  intro l
  induction l with
  | nil => intro s _; rfl
  | cons d rest ih =>
    intro s hl
    obtain ⟨cmd, hcm, hne⟩ := hl d (List.mem_cons_self _ _)
    simp only [ProcessEventGo]
    rw [hcm]
    simp only [Option.some_bind]
    rw [if_neg hne]
    rw [ih s (fun x hx => hl x (List.mem_cons_of_mem _ hx))]
    rfl

theorem processEventGo_append (env : ZeEnv) (dm : List (Nat × List Nat))
    (event : Nat) (c : ZeKernelCall) :
    ∀ (pre : List ZeKernelCall) (s : CollectorState) (post : List ZeKernelCall),
      (∀ x ∈ pre, ∃ cmd, s.commands x.command = some cmd ∧ ¬ cmd.event = event) →
      (∃ cmd, s.commands c.command = some cmd ∧ cmd.event = event) →
      ProcessEventGo env dm event s (pre ++ c :: post) =
        (ProcessCall env dm s c).map (fun t => (t, pre ++ post)) := by
  intro pre
  induction pre with
  | nil =>
    intro s post _ hc
    obtain ⟨cmd, hcm, hce⟩ := hc
    simp only [List.nil_append, ProcessEventGo]
    rw [hcm]
    simp only [Option.some_bind]
    rw [if_pos hce]
    cases ProcessCall env dm s c <;> rfl
  | cons d pre ih =>
    intro s post hpre hc
    obtain ⟨cmdd, hdm2, hde⟩ := hpre d (List.mem_cons_self _ _)
    simp only [List.cons_append, ProcessEventGo]
    rw [hdm2]
    simp only [Option.some_bind, List.append_eq]
    rw [if_neg hde]
    rw [ih s post (fun x hx => hpre x (List.mem_cons_of_mem _ hx)) hc]
    cases ProcessCall env dm s c <;> rfl

/-- C8: given one completion event, the single-event finalize removes and
finalizes exactly the one pending call whose command uses that event; it is
a no-op when the event is not signaled; and a call is never finalized twice:
after the removal, a second invocation for the same event leaves the state
unchanged. -/
theorem processCall_event_finalize_once (env : ZeEnv)
    (dm : List (Nat × List Nat)) (s : CollectorState) (event : Nat)
    (pre post : List ZeKernelCall) (c : ZeKernelCall)
    (hlist : s.kernel_call_list = pre ++ c :: post)
    (hpre : ∀ x ∈ pre ++ post,
      ∃ cmd, s.commands x.command = some cmd ∧ ¬ cmd.event = event)
    (hc : ∃ cmd, s.commands c.command = some cmd ∧ cmd.event = event)
    (hsig : env.eventStatus event = ZeResult.success) :
    ProcessCallEvent env dm s event =
      (ProcessCall env dm s c).map
        (fun t => { t with kernel_call_list := pre ++ post }) ∧
    (∀ (env0 : ZeEnv) (s0 : CollectorState),
      ¬ env0.eventStatus event = ZeResult.success →
      ProcessCallEvent env0 dm s0 event = some s0) ∧
    (∀ t, ProcessCall env dm s c = some t →
      ProcessCallEvent env dm
        { t with kernel_call_list := pre ++ post } event =
        some { t with kernel_call_list := pre ++ post }) := by
  refine ⟨?_, ?_, ?_⟩
  · unfold ProcessCallEvent
    rw [if_neg (not_not_intro hsig), hlist]
    rw [processEventGo_append env dm event c pre s post
          (fun x hx => hpre x (List.mem_append.mpr (Or.inl hx))) hc]
    cases ProcessCall env dm s c <;> rfl
  · intro env0 s0 h0
    unfold ProcessCallEvent
    rw [if_pos h0]
  · intro t ht
    have hcomm := (processCall_commands_eq env dm s c t ht).1
    unfold ProcessCallEvent
    rw [if_neg (not_not_intro hsig)]
    rw [show ({ t with kernel_call_list := pre ++ post } :
          CollectorState).kernel_call_list = pre ++ post from rfl]
    rw [processEventGo_nomatch env dm event (pre ++ post) _ (by
      intro x hx
      obtain ⟨cmd, hcm, hne⟩ := hpre x hx
      refine ⟨cmd, ?_, hne⟩
      show t.commands x.command = some cmd
      rw [hcomm]
      exact hcm)]
    rfl

/-- Witness for C8 on the example two-call state: event 11 finalizes exactly
the second call, leaving the first pending. -/
theorem processCall_event_finalize_once_witness :
    (ProcessCall exEnvSel exDm exState2 exCall1).isSome = true ∧
    (ProcessCallEvent exEnvSel exDm exState2 11 =
      (ProcessCall exEnvSel exDm exState2 exCall1).map
        (fun t => { t with kernel_call_list := [exCall0] ++ [] }) ∧
    (∀ (env0 : ZeEnv) (s0 : CollectorState),
      ¬ env0.eventStatus 11 = ZeResult.success →
      ProcessCallEvent env0 exDm s0 11 = some s0) ∧
    (∀ t, ProcessCall exEnvSel exDm exState2 exCall1 = some t →
      ProcessCallEvent exEnvSel exDm
        { t with kernel_call_list := [exCall0] ++ [] } 11 =
        some { t with kernel_call_list := [exCall0] ++ [] })) :=
  ⟨by decide,
   processCall_event_finalize_once exEnvSel exDm exState2 11 [exCall0] []
     exCall1 rfl
     (by
       intro x hx
       simp only [List.append_nil, List.mem_singleton] at hx
       subst hx
       exact ⟨exCmd0, rfl, by decide⟩)
     ⟨exCmd1, rfl, rfl⟩ rfl⟩
